import Mathlib

/-!
Shallow embedding of `src/index.ts`, a minimal command-line dispatcher:
a registry mapping command names to handler functions, a strict positional
parser built on the platform `util.parseArgs`, and a lookup/execute dispatch
step that falls back to listing the registered command names.
-/

/-- A command handler (`CommandFunction` in the source): receives the argument
list and produces the lines it prints to standard output (`console.log`, one
line per call). -/
abbrev Handler : Type := List String → List String

/-- The registry `commands : Record<string, CommandFunction>`: an
insertion-ordered association list with unique keys, as a JS object is for
string keys. (JS additionally fronts integer-like keys in numeric order in
`Object.keys`; none of the names used here are integer-like.) -/
abbrev Registry (H : Type) := List (String × H)

/-- JS property write `obj[k] = v`: overwrite in place when the key exists,
keeping its original position, otherwise append a fresh entry at the end. -/
def Registry.set {H : Type} : Registry H → String → H → Registry H
  | [], n, h => [(n, h)]
  | (k, v) :: t, n, h => if k = n then (k, h) :: t else (k, v) :: Registry.set t n h

/-- JS property read `obj[k]`: the value at the first (unique) matching key,
`undefined` (here `none`) when the key is absent. -/
def Registry.lookup {H : Type} : Registry H → String → Option H
  | [], _ => none
  | (k, v) :: t, n => if k = n then some v else Registry.lookup t n

/-- The key list `Object.keys(commands)` iterated by the fallback listing:
the keys in insertion order. -/
def Registry.listNames {H : Type} (r : Registry H) : List String :=
  r.map Prod.fst

/-- The function `defineCommand` from `src/index.ts`:
`commands[commandName] = commandFunction`. -/
def defineCommand {H : Type} (commandName : String) (commandFunction : H)
    (r : Registry H) : Registry H :=
  Registry.set r commandName commandFunction

/-- The `hw` built-in handler of `src/index.ts`: prints the single line
`Hello world`, ignoring its arguments. -/
def hwFun : Handler := fun _ => ["Hello world"]

/-- The registry after startup: `commands` is initialized empty and the source
registers exactly one command, `hw`. -/
def startupCommands : Registry Handler := defineCommand "hw" hwFun []

/-- Modelled from the spec: a `help` command is referenced by the dispatch
(`commands.help([])`) but its registration is absent from the source excerpt;
its handler body is abstract here (it prints one recognizable line). -/
def helpFun : Handler := fun _ => ["<help>"]

/-- The startup registry extended with the spec-referenced `help` handler,
used to examine the no-positional-arguments path. -/
def helpRegistry : Registry Handler := defineCommand "help" helpFun startupCommands

/-- A token that `util.parseArgs` classifies as option-like: it starts with
the option marker character `-`. -/
def isOptionToken (s : String) : Bool :=
  match s.data with
  | '-' :: _ => true
  | _ => false

/-- The `util.parseArgs` call made by `parseCommand` (`options: \x7b\x7d`,
`strict: true`, `allowPositionals: true`), per the documented Node/Bun
semantics: `--` ends option scanning and all later tokens are positionals, a
lone `-` is a positional, any other `-`-prefixed token is an unknown option
and raises `ArgumentError` (here `Except.error ()`), and every other token is
a positional. -/
def parseArgsPositionals : List String → Except Unit (List String)
  | [] => .ok []
  | arg :: rest =>
    if arg = "--" then .ok rest
    else if arg = "-" then
      match parseArgsPositionals rest with
      | .error e => .error e
      | .ok ps => .ok (arg :: ps)
    else if isOptionToken arg then .error ()
    else
      match parseArgsPositionals rest with
      | .error e => .error e
      | .ok ps => .ok (arg :: ps)

/-- The `Command` record of `src/index.ts`. The destructuring
`const [command, ...argsWithoutCommand] = positionals` leaves `command`
`undefined` (`none`) when there are no positionals at all. -/
structure Command where
  command : Option String
  args : List String
deriving DecidableEq, Repr

/-- The function `parseCommand` from `src/index.ts`: run `util.parseArgs` and
split the positionals into the first token (`command`) and the rest (`args`). -/
def parseCommand (args : List String) : Except Unit Command :=
  match parseArgsPositionals args with
  | .error e => .error e
  | .ok positionals => .ok { command := positionals.head?, args := positionals.tail }

/-- The function `runCommand` from `src/index.ts`: invoke the looked-up
handler with the given arguments, or, when the lookup misses, print the
header `Available commands:` and one `- name` line per registered key. -/
def runCommand (r : Registry Handler) (command : String) (args : List String) : List String :=
  match Registry.lookup r command with
  | none => "Available commands:" :: (Registry.listNames r).map (fun n => "- " ++ n)
  | some commandFunction => commandFunction args

/-- JS property access with an `undefined` index coerces the index to the
string key `"undefined"`; `commands[command.args[1]]` with the index out of
bounds therefore looks up the key `"undefined"`. -/
def jsKey : Option String → String
  | some s => s
  | none => "undefined"

/-- Observable outcome of one program invocation: a parse failure
(`ArgumentError`), a crash from calling the unregistered `commands.help`, or
normal completion with the list of printed lines. -/
inductive RunOutcome where
  | argError : RunOutcome
  | missingHelpCrash : RunOutcome
  | output : List String → RunOutcome
deriving DecidableEq, Repr

/-- The top-level dispatch of `src/index.ts`, run on argument vector `argv`
(`Bun.argv`: runtime path, script path, then user tokens) with registry `r`:
parse, then either `commands.help([])` when `command.args` is empty (a crash
when `help` is unregistered), or `runCommand(command.args[1], command.args)`. -/
def mainRun (r : Registry Handler) (argv : List String) : RunOutcome :=
  match parseCommand argv with
  | .error _ => .argError
  | .ok command =>
    if command.args.length = 0 then
      match Registry.lookup r "help" with
      | some helpFunction => .output (helpFunction [])
      | none => .missingHelpCrash
    else
      .output (runCommand r (jsKey (command.args.get? 1)) command.args)

/-- An argument vector contains an unknown option token: some `-`-prefixed
token other than a lone `-`, that is not itself the `--` terminator and
occurs strictly before any `--` terminator. -/
def hasUnknownOption : List String → Bool
  | [] => false
  | arg :: rest =>
    if arg = "--" then false
    else if arg = "-" then hasUnknownOption rest
    else if isOptionToken arg then true
    else hasUnknownOption rest

/-- Looking up the key just written returns the value just written. -/
lemma lookup_set_self {H : Type} (r : Registry H) (n : String) (h : H) :
    Registry.lookup (Registry.set r n h) n = some h := by
  induction r with
  | nil => simp [Registry.set, Registry.lookup]
  | cons p t ih =>
    obtain ⟨k, v⟩ := p
    by_cases hk : k = n
    · simp [Registry.set, Registry.lookup, hk]
    · simp [Registry.set, Registry.lookup, hk, ih]

/-- Writing one key leaves the lookup of every other key unchanged. -/
lemma lookup_set_other {H : Type} (r : Registry H) (n m : String) (h : H)
    (hmn : m ≠ n) :
    Registry.lookup (Registry.set r n h) m = Registry.lookup r m := by
  have hnm : n ≠ m := fun hh => hmn hh.symm
  induction r with
  | nil => simp [Registry.set, Registry.lookup, hnm]
  | cons p t ih =>
    obtain ⟨k, v⟩ := p
    by_cases hk : k = n
    · subst hk
      simp [Registry.set, Registry.lookup, hnm]
    · simp [Registry.set, Registry.lookup, hk, ih]

/-- C6: for all names `n` and handlers `h`, `defineCommand n h` followed by
`lookup n` returns `h` (registration/lookup round-trip). -/
theorem register_lookup_roundtrip {H : Type} (r : Registry H) (n : String) (h : H) :
    Registry.lookup (defineCommand n h r) n = some h :=
  lookup_set_self r n h

/-- C7: registering the same name twice overwrites silently; after
`defineCommand n h1` then `defineCommand n h2`, looking up `n` returns `h2`. -/
theorem register_overwrite_last_wins {H : Type} (r : Registry H) (n : String) (h1 h2 : H) :
    Registry.lookup (defineCommand n h2 (defineCommand n h1 r)) n = some h2 :=
  lookup_set_self (defineCommand n h1 r) n h2

/-- C10: `defineCommand n h` changes only the mapping for `n`; every other
name `m` looks up to the same result before and after the registration. -/
theorem register_frame_other_names {H : Type} (r : Registry H) (n m : String) (h : H)
    (hmn : m ≠ n) :
    Registry.lookup (defineCommand n h r) m = Registry.lookup r m :=
  lookup_set_other r n m h hmn

/-- Witness for C10 at a concrete registry: registering `zz` does not disturb
the entry for `hw`. -/
theorem register_frame_other_names_witness :
    "hw" ≠ "zz" ∧
    Registry.lookup (defineCommand "zz" 7 [("hw", 5)]) "hw" = Registry.lookup [("hw", 5)] "hw" :=
  ⟨by decide, register_frame_other_names [("hw", 5)] "zz" "hw" 7 (by decide)⟩

/-- Parsing a cons whose head is a plain (non-`-`-prefixed) token keeps the
head as a positional and parses the rest. -/
lemma parseArgsPositionals_cons_plain (a : String) (rest : List String)
    (ha : isOptionToken a = false) :
    parseArgsPositionals (a :: rest) =
      match parseArgsPositionals rest with
      | .error e => .error e
      | .ok ps => .ok (a :: ps) := by
  have h1 : a ≠ "--" := by
    intro hh
    rw [hh] at ha
    exact absurd ha (by decide)
  have h2 : a ≠ "-" := by
    intro hh
    rw [hh] at ha
    exact absurd ha (by decide)
  simp [parseArgsPositionals, h1, h2, ha]

/-- The strict parse fails exactly when the vector holds an unknown option
token before any `--` terminator. -/
lemma parseArgsPositionals_error_iff (args : List String) :
    parseArgsPositionals args = .error () ↔ hasUnknownOption args = true := by
  induction args with
  | nil => simp [parseArgsPositionals, hasUnknownOption]
  | cons a rest ih =>
    by_cases h1 : a = "--"
    · simp [parseArgsPositionals, hasUnknownOption, h1]
    · by_cases h2 : a = "-"
      · cases hp : parseArgsPositionals rest with
        | error e =>
          cases e
          simp [parseArgsPositionals, hasUnknownOption, h1, h2, hp, ih.mp hp]
        | ok ps =>
          have hno : ¬ hasUnknownOption rest = true := by
            intro hu
            rw [ih.mpr hu] at hp
            exact Except.noConfusion hp
          simp [parseArgsPositionals, hasUnknownOption, h1, h2, hp, hno]
      · by_cases h3 : isOptionToken a = true
        · simp [parseArgsPositionals, hasUnknownOption, h1, h2, h3]
        · cases hp : parseArgsPositionals rest with
          | error e =>
            cases e
            simp [parseArgsPositionals, hasUnknownOption, h1, h2, h3, hp, ih.mp hp]
          | ok ps =>
            have hno : ¬ hasUnknownOption rest = true := by
              intro hu
              rw [ih.mpr hu] at hp
              exact Except.noConfusion hp
            simp [parseArgsPositionals, hasUnknownOption, h1, h2, h3, hp, hno]

/-- C4 counterexample: the vector `["--", "--bogus"]` contains tokens that
begin with the option marker, yet `parseCommand` succeeds — `--` terminates
option scanning and `--bogus` becomes a plain positional. -/
theorem option_marker_token_parses_ok :
    parseCommand ["--", "--bogus"] = .ok ⟨some "--bogus", []⟩ := rfl

/-- C4 amended: parsing fails with `ArgumentError` exactly when the vector
contains an unknown option token — a `-`-prefixed token other than a lone `-`
that is not the `--` terminator and occurs before any `--` terminator. -/
theorem unknown_option_error_iff (args : List String) :
    parseCommand args = .error () ↔ hasUnknownOption args = true := by
  rw [← parseArgsPositionals_error_iff]
  cases hp : parseArgsPositionals args with
  | error e =>
    cases e
    simp [parseCommand, hp]
  | ok ps => simp [parseCommand, hp]

/-- Witness for the amended C4: the vector `["--bogus"]` from the spec fails
with `ArgumentError`. -/
theorem unknown_option_error_iff_witness :
    parseCommand ["--bogus"] = .error () :=
  (unknown_option_error_iff ["--bogus"]).mpr rfl

/-- C8: parsing `["hw"]` yields command token `hw` and an empty argument
list; in general the parse splits the positionals into head (command) and
tail (args). -/
theorem parse_first_positional_command :
    parseCommand ["hw"] = .ok ⟨some "hw", []⟩ ∧
    ∀ (argv ps : List String), parseArgsPositionals argv = .ok ps →
      parseCommand argv = .ok ⟨ps.head?, ps.tail⟩ := by
  refine ⟨rfl, ?_⟩
  intro argv ps hp
  unfold parseCommand
  rw [hp]

/-- Witness for C8 at a two-token vector: command `a`, argument list `[b]`. -/
theorem parse_first_positional_command_witness :
    parseArgsPositionals ["a", "b"] = .ok ["a", "b"] ∧
    parseCommand ["a", "b"] = .ok ⟨some "a", ["b"]⟩ :=
  ⟨rfl, parse_first_positional_command.2 ["a", "b"] ["a", "b"] rfl⟩

/-- C3: for every command name absent from the registry, `runCommand` invokes
no handler and is not an error — it prints the header `Available commands:`
followed by one `- name` line per registered name, in `listNames` order. -/
theorem unknown_command_lists_available (r : Registry Handler) (c : String)
    (args : List String) (habs : Registry.lookup r c = none) :
    runCommand r c args =
      "Available commands:" :: (Registry.listNames r).map (fun n => "- " ++ n) := by
  unfold runCommand
  rw [habs]

/-- Witness for C3: the name `unknown` misses the startup registry and the
listing shows the single registered command `hw`. -/
theorem unknown_command_lists_available_witness :
    Registry.lookup startupCommands "unknown" = none ∧
    runCommand startupCommands "unknown" [] = ["Available commands:", "- hw"] :=
  ⟨rfl, unknown_command_lists_available startupCommands "unknown" [] rfl⟩

/-- C5: with any non-option runtime and script tokens, the argument vector
`[runtime, script, "hw"]` makes the program print exactly `Hello world`. -/
theorem hw_end_to_end (rt sc : String)
    (hrt : isOptionToken rt = false) (hsc : isOptionToken sc = false) :
    mainRun startupCommands [rt, sc, "hw"] = .output ["Hello world"] := by
  have hp : parseCommand [rt, sc, "hw"] = .ok ⟨some rt, [sc, "hw"]⟩ := by
    unfold parseCommand
    rw [parseArgsPositionals_cons_plain rt [sc, "hw"] hrt,
        parseArgsPositionals_cons_plain sc ["hw"] hsc]
    rfl
  unfold mainRun
  rw [hp]
  rfl

/-- Witness for C5 at concrete runtime and script tokens. -/
theorem hw_end_to_end_witness :
    isOptionToken "bun" = false ∧
    mainRun startupCommands ["bun", "app.ts", "hw"] = .output ["Hello world"] :=
  ⟨rfl, hw_end_to_end "bun" "app.ts" rfl rfl⟩

/-- C2: when the parsed command carries positional arguments, the dispatcher
takes the element at index 1 of `command.args` as the command name and passes
the entire `command.args` (command token included) to the looked-up handler. -/
theorem dispatch_uses_index_one (r : Registry Handler) (argv : List String)
    (cmd : Command) (hp : parseCommand argv = .ok cmd) (hne : cmd.args ≠ [])
    (name : String) (hname : cmd.args.get? 1 = some name)
    (h : Handler) (hh : Registry.lookup r name = some h) :
    mainRun r argv = .output (h cmd.args) := by
  have h0 : ¬ cmd.args.length = 0 := fun hz => hne (List.length_eq_zero.mp hz)
  have hname' : cmd.args[1]? = some name := by
    rw [← List.get?_eq_getElem?]
    exact hname
  unfold mainRun
  rw [hp]
  simp [h0, hname', jsKey, runCommand, hh]

/-- Witness for C2: on `["bun", "app.ts", "hw"]` the parsed args are
`["app.ts", "hw"]`, index 1 is `hw`, and `hw` receives the whole args list. -/
theorem dispatch_uses_index_one_witness :
    parseCommand ["bun", "app.ts", "hw"] = .ok ⟨some "bun", ["app.ts", "hw"]⟩ ∧
    mainRun startupCommands ["bun", "app.ts", "hw"] = .output (hwFun ["app.ts", "hw"]) :=
  ⟨rfl, dispatch_uses_index_one startupCommands ["bun", "app.ts", "hw"]
    ⟨some "bun", ["app.ts", "hw"]⟩ rfl (by simp) "hw" rfl hwFun rfl⟩

/-- C9: when the parsed args hold exactly one element (e.g. only the script
token) and no command is registered under the coerced key `undefined`,
reading index 1 is absent, the lookup misses, and the fallback listing is
printed — no crash, and no handler (help included) runs. -/
theorem short_args_dispatch_total (r : Registry Handler) (argv : List String)
    (cmd : Command) (hp : parseCommand argv = .ok cmd) (hlen : cmd.args.length = 1)
    (hund : Registry.lookup r "undefined" = none) :
    cmd.args.get? 1 = none ∧
    Registry.lookup r (jsKey (cmd.args.get? 1)) = none ∧
    mainRun r argv =
      .output ("Available commands:" :: (Registry.listNames r).map (fun n => "- " ++ n)) := by
  obtain ⟨a, ha⟩ := List.length_eq_one.mp hlen
  have hget : cmd.args.get? 1 = none := by rw [ha]; rfl
  have hget' : cmd.args[1]? = none := by
    rw [← List.get?_eq_getElem?]
    exact hget
  have h0 : ¬ cmd.args.length = 0 := by rw [hlen]; decide
  refine ⟨hget, ?_, ?_⟩
  · rw [hget]
    exact hund
  · unfold mainRun
    rw [hp]
    simp [h0, hget', jsKey, runCommand, hund]

/-- Witness for C9: a run with only runtime and script tokens prints the
fallback listing of the startup registry. -/
theorem short_args_dispatch_total_witness :
    parseCommand ["bun", "app.ts"] = .ok ⟨some "bun", ["app.ts"]⟩ ∧
    mainRun startupCommands ["bun", "app.ts"] = .output ["Available commands:", "- hw"] :=
  ⟨rfl, (short_args_dispatch_total startupCommands ["bun", "app.ts"]
    ⟨some "bun", ["app.ts"]⟩ rfl rfl rfl).2.2⟩

/-- C1 counterexample: with `help` registered, running with exactly the
runtime and script tokens does not invoke `help` — the parsed args are the
one-element list holding the script token, so the dispatcher takes the
command path and prints the fallback listing. -/
theorem runtime_script_only_skips_help :
    Registry.lookup helpRegistry "help" = some helpFun ∧
    mainRun helpRegistry ["bun", "app.ts"] =
      .output ["Available commands:", "- hw", "- help"] ∧
    mainRun helpRegistry ["bun", "app.ts"] ≠ .output (helpFun []) :=
  ⟨rfl, rfl, by decide⟩

/-- C1 amended: the `help` path runs only when the parsed command carries no
positional arguments at all (raw vector of length at most one, so even the
script token is absent); then, with `help` registered, the dispatcher invokes
the `help` handler with an empty argument list. -/
theorem help_invoked_on_empty_args (r : Registry Handler) (argv : List String)
    (cmd : Command) (hp : parseCommand argv = .ok cmd) (hargs : cmd.args = [])
    (h : Handler) (hh : Registry.lookup r "help" = some h) :
    mainRun r argv = .output (h []) := by
  unfold mainRun
  rw [hp]
  simp [hargs, hh]

/-- Witness for the amended C1: a one-token vector parses to empty args and
the registered `help` handler runs on `[]`. -/
theorem help_invoked_on_empty_args_witness :
    parseCommand ["bun"] = .ok ⟨some "bun", []⟩ ∧
    Registry.lookup helpRegistry "help" = some helpFun ∧
    mainRun helpRegistry ["bun"] = .output (helpFun []) :=
  ⟨rfl, rfl, help_invoked_on_empty_args helpRegistry ["bun"]
    ⟨some "bun", []⟩ rfl rfl helpFun rfl⟩
